import Mathlib

/-!
Verification of the blog CMS core (src/cms.py) against its specification.

The Python source is shallowly embedded: pure fragments become Lean
functions over `String` / `List Char`; the in-memory metadata store
becomes a function from slug to `Option PostMetadata`; code paths that
can raise a Python exception which is caught at the per-document
boundary are modelled with `Except Unit` / `Option`.  Characters are
treated as ASCII (all fixed strings in the program are ASCII, and
Python's `str.lower` / `str.strip` agree with Lean's `Char.toLower` /
`String.trim` on ASCII input).
-/

/-! ### List-of-characters utilities

Python's substring operator `needle in haystack` and `str.find` are
embedded over `List Char`. -/

/-- Tests whether the first list is a prefix of the second. -/
def listPrefixOf : List Char → List Char → Bool
  | [], _ => true
  | _ :: _, [] => false
  | a :: as, b :: bs => a == b && listPrefixOf as bs

/-- Python `needle in haystack` for strings: the needle occurs as a
contiguous substring of the haystack. -/
def occursIn (needle : List Char) : List Char → Bool
  | [] => needle == []
  | c :: rest => listPrefixOf needle (c :: rest) || occursIn needle rest

/-- Substring test on `String`s (Python `needle in haystack`). -/
def occursInStr (needle haystack : String) : Bool :=
  occursIn needle.data haystack.data

/-- Strip the first list from the front of the second. -/
def stripPrefixChars : List Char → List Char → Option (List Char)
  | [], cs => some cs
  | _ :: _, [] => none
  | p :: ps, c :: cs => if p == c then stripPrefixChars ps cs else none

/-- Python `str.lower()` (ASCII model). -/
def pyLower (s : String) : String :=
  String.mk (s.data.map Char.toLower)

/-- Python `str.strip()` with no argument: drop leading and trailing
whitespace. -/
def pyTrim (s : String) : String :=
  String.mk (((s.data.dropWhile Char.isWhitespace).reverse.dropWhile Char.isWhitespace).reverse)

/-- Python `s[:n]` on strings (character prefix). -/
def pyTake (s : String) (n : Nat) : String :=
  String.mk (s.data.take n)

/-- Replace every non-overlapping occurrence of `old` (non-empty in all
uses here) by `new`, scanning left to right; the fuel argument is the
input length, which suffices for non-empty `old`. -/
def replaceAllAux (old new : List Char) : Nat → List Char → List Char
  | _, [] => []
  | 0, s => s
  | fuel + 1, c :: rest =>
    match stripPrefixChars old (c :: rest) with
    | some after => new ++ replaceAllAux old new fuel after
    | none => c :: replaceAllAux old new fuel rest

/-- Python `s.replace(old, new)` for non-empty `old`. -/
def pyReplace (s old new : String) : String :=
  String.mk (replaceAllAux old.data new.data s.data.length s.data)

/-- Python `sep.join(items)`. -/
def joinWith (sep : String) : List String → String
  | [] => ""
  | [x] => x
  | x :: xs => x ++ sep ++ joinWith sep xs

/-- Python `haystack.find(needle, start)` restricted to the tail
`haystack.drop start`; `i` is the absolute index accumulator, so that
`findIdxAux needle (cs.drop start) start` returns the least absolute
index `≥ start` at which `needle` occurs in `cs`, or `none`
(Python returns `-1`, modelled as `none`). -/
def findIdxAux (needle : List Char) : List Char → Nat → Option Nat
  | [], i => if needle == [] then some i else none
  | c :: rest, i =>
    if listPrefixOf needle (c :: rest) then some i else findIdxAux needle rest (i + 1)

/-! ### The authoring-time YouTube id validator

Source: `BlogCMS.validate_youtube_id`, which evaluates
`re.match(r?, id)` with the pattern anchored as eleven characters of
the class `[a-zA-Z0-9_-]` followed by a dollar.  Python's dollar
anchor matches at the end of the string or just before a newline that
ends the string, so the embedding keeps that case. -/

/-- Characters of the regex class `[a-zA-Z0-9_-]`. -/
def isYtChar (c : Char) : Bool :=
  (decide ('a' ≤ c) && decide (c ≤ 'z')) ||
  (decide ('A' ≤ c) && decide (c ≤ 'Z')) ||
  (decide ('0' ≤ c) && decide (c ≤ '9')) || c == '_' || c == '-'

/-- Consume exactly `n` characters of class `cls` from the front,
returning the remainder; `none` when fewer than `n` class characters
lead the list.  Models the regex fragment of `n` repetitions of a
character class applied at the start of the input. -/
def matchClassN (cls : Char → Bool) : Nat → List Char → Option (List Char)
  | 0, rest => some rest
  | _ + 1, [] => none
  | n + 1, c :: rest => if cls c then matchClassN cls n rest else none

/-- Python's `$` anchor: succeeds at the end of the input or just
before a single newline that ends the input. -/
def matchDollar : List Char → Bool
  | [] => true
  | [c] => c == '\n'
  | _ :: _ :: _ => false

/-- `BlogCMS.validate_youtube_id`: `bool(re.match(pattern, id))` where the
pattern is a caret, eleven characters of `[a-zA-Z0-9_-]`, and a dollar. -/
def validate_youtube_id (s : String) : Bool :=
  match matchClassN isYtChar 11 s.data with
  | some rest => matchDollar rest
  | none => false

theorem matchClassN_eq_some (cls : Char → Bool) :
    ∀ (n : Nat) (cs rest : List Char),
      matchClassN cls n cs = some rest ↔
        ∃ pre, cs = pre ++ rest ∧ pre.length = n ∧ pre.all cls = true := by
  intro n
  induction n with
  | zero =>
    intro cs rest
    constructor
    · intro h
      exact ⟨[], by simpa [matchClassN] using h, rfl, rfl⟩
    · rintro ⟨pre, hcs, hlen, _⟩
      have : pre = [] := List.length_eq_zero.mp hlen
      subst this
      simpa [matchClassN] using hcs
  | succ n ih =>
    intro cs rest
    cases cs with
    | nil =>
      simp only [matchClassN]
      constructor
      · intro h; exact absurd h (by simp)
      · rintro ⟨pre, hcs, hlen, _⟩
        cases pre with
        | nil => simp at hlen
        | cons a as => simp at hcs
    | cons c cs' =>
      simp only [matchClassN]
      by_cases hc : cls c = true
      · rw [if_pos hc, ih]
        constructor
        · rintro ⟨pre, hcs, hlen, hall⟩
          exact ⟨c :: pre, by simp [hcs], by simp [hlen], by simp [hall, hc]⟩
        · rintro ⟨pre, hcs, hlen, hall⟩
          cases pre with
          | nil => simp at hlen
          | cons a as =>
            have ha : a = c := by simpa using congrArg (List.head? ·) hcs.symm
            subst ha
            refine ⟨as, by simpa using hcs, by simpa using hlen, ?_⟩
            simp only [List.all_cons, Bool.and_eq_true] at hall
            exact hall.2
      · rw [if_neg hc]
        constructor
        · intro h; exact absurd h (by simp)
        · rintro ⟨pre, hcs, hlen, hall⟩
          cases pre with
          | nil => simp at hlen
          | cons a as =>
            have ha : a = c := by simpa using congrArg (List.head? ·) hcs.symm
            subst ha
            simp only [List.all_cons, Bool.and_eq_true] at hall
            exact absurd hall.1 hc

/-- C8 counterexample: the claim says every string whose length is not
eleven is rejected, but the validator accepts the twelve-character
string of eleven class characters followed by a newline, because
Python's `$` matches before a trailing newline. -/
theorem validate_youtube_id_accepts_trailing_newline :
    validate_youtube_id "abcdefghijk\n" = true ∧ ("abcdefghijk\n").length = 12 := by
  decide

/-- C8 (amended): the validator accepts a string iff it is exactly
eleven characters from `[a-zA-Z0-9_-]`, or such an eleven-character
string followed by one trailing newline (Python dollar-anchor
semantics); everything else is rejected. -/
theorem validate_youtube_id_spec (s : String) :
    validate_youtube_id s = true ↔
      ((s.data.length = 11 ∧ s.data.all isYtChar = true) ∨
       (∃ pre, s.data = pre ++ ['\n'] ∧ pre.length = 11 ∧ pre.all isYtChar = true)) := by
  unfold validate_youtube_id
  constructor
  · intro h
    cases hm : matchClassN isYtChar 11 s.data with
    | none => rw [hm] at h; exact absurd h (by simp)
    | some rest =>
      rw [hm] at h
      obtain ⟨pre, hcs, hlen, hall⟩ := (matchClassN_eq_some isYtChar 11 s.data rest).mp hm
      cases rest with
      | nil =>
        left
        constructor
        · simp [hcs, hlen]
        · simpa [hcs] using hall
      | cons r rest' =>
        cases rest' with
        | nil =>
          have hr : r = '\n' := by simpa [matchDollar] using h
          subst hr
          exact Or.inr ⟨pre, hcs, hlen, hall⟩
        | cons r2 rest'' => simp [matchDollar] at h
  · intro h
    rcases h with ⟨hlen, hall⟩ | ⟨pre, hcs, hlen, hall⟩
    · have hm : matchClassN isYtChar 11 s.data = some [] :=
        (matchClassN_eq_some isYtChar 11 s.data []).mpr ⟨s.data, by simp, hlen, hall⟩
      rw [hm]; rfl
    · have hm : matchClassN isYtChar 11 s.data = some ['\n'] :=
        (matchClassN_eq_some isYtChar 11 s.data ['\n']).mpr ⟨pre, hcs, hlen, hall⟩
      rw [hm]; rfl

/-! ### The series classifier

Source: `BlogCMS.detect_series_from_content`.  The three inputs are
joined with single spaces and lowercased; each series of the fixed
table is scored by the number of its patterns occurring as substrings;
series with score zero are dropped; Python's
`max(series_scores, key=series_scores.get)` walks the remaining
entries in insertion order (which is table order) and replaces the
current best only on a strictly greater score, so the first entry of
any maximal score wins. -/

/-- The fixed series pattern table, in declaration order. -/
def seriesPatterns : List (String × List String) :=
  [("after_hours", ["night", "evening", "late", "pasar malam", "after hours", "nightlife"]),
   ("cram_and_cry", ["study", "cram", "cafe", "coffee", "library", "exam", "studying"]),
   ("food_for_heartbreak", ["food", "eat", "heartbreak", "comfort", "restaurant", "meal"]),
   ("stressed_depressed", ["stress", "depression", "mental health", "overwhelm", "crisis", "burnout"]),
   ("commute_crisis", ["commute", "transport", "bus", "train", "travel", "journey", "brt"])]

/-- The lowercased concatenation `title content keywords` searched by the
classifier (Python f-string with single spaces, then `.lower()`). -/
def searchText (title content keywords : String) : String :=
  pyLower (title ++ " " ++ content ++ " " ++ keywords)

/-- Number of patterns from the list occurring as substrings of the text
(Python `sum(1 for pattern in patterns if pattern in text_to_search)`). -/
def countMatches (patterns : List String) (text : String) : Nat :=
  (patterns.filter (fun p => occursInStr p text)).length

/-- Python `max(..., key=...)` over a nonempty list: keeps the current
best and replaces it only on a strictly greater score, so on ties the
earlier element survives. -/
def maxFirst : (String × Nat) → List (String × Nat) → (String × Nat)
  | m, [] => m
  | m, x :: xs => maxFirst (if m.2 < x.2 then x else m) xs

/-- The `series_scores` mapping of the source: each table entry paired
with its score, keeping only strictly positive scores, in table order
(Python dict insertion order). -/
def series_scores (text : String) : List (String × Nat) :=
  (seriesPatterns.map (fun sp => (sp.1, countMatches sp.2 text))).filter
    (fun x => decide (0 < x.2))

/-- The selection step of the source: empty string when no series
scored, otherwise the first key of maximal score. -/
def detect_series_core (text : String) : String :=
  match series_scores text with
  | [] => ""
  | x :: xs => (maxFirst x xs).1

/-- `BlogCMS.detect_series_from_content`. -/
def detect_series_from_content (title content keywords : String) : String :=
  detect_series_core (searchText title content keywords)

theorem maxFirst_bound (l : List (String × Nat)) :
    ∀ m : String × Nat, ∀ y ∈ m :: l, y.2 ≤ (maxFirst m l).2 := by
  induction l with
  | nil =>
    intro m y hy
    simp only [List.mem_singleton] at hy
    subst hy
    exact Nat.le_refl _
  | cons x xs ih =>
    intro m y hy
    have hstep : maxFirst m (x :: xs) = maxFirst (if m.2 < x.2 then x else m) xs := rfl
    rw [hstep]
    rcases List.mem_cons.mp hy with hym | hyx
    · subst hym
      have h1 : y.2 ≤ (if y.2 < x.2 then x else y).2 := by
        by_cases h : y.2 < x.2
        · simp [h, Nat.le_of_lt h]
        · simp [h]
      exact Nat.le_trans h1 (ih _ _ (List.mem_cons_self _ _))
    · rcases List.mem_cons.mp hyx with hyx' | hmem
      · subst hyx'
        have h1 : y.2 ≤ (if m.2 < y.2 then y else m).2 := by
          by_cases h : m.2 < y.2
          · simp [h]
          · simp [h, Nat.le_of_not_lt h]
        exact Nat.le_trans h1 (ih _ _ (List.mem_cons_self _ _))
      · exact ih _ _ (List.mem_cons_of_mem _ hmem)

theorem maxFirst_split (l : List (String × Nat)) :
    ∀ m : String × Nat,
      ∃ l1 l2, m :: l = l1 ++ (maxFirst m l) :: l2 ∧
        (∀ x ∈ l1, x.2 < (maxFirst m l).2) ∧
        (∀ x ∈ l2, x.2 ≤ (maxFirst m l).2) := by
  induction l with
  | nil =>
    intro m
    exact ⟨[], [], rfl, by simp, by simp⟩
  | cons x xs ih =>
    intro m
    have hstep : maxFirst m (x :: xs) = maxFirst (if m.2 < x.2 then x else m) xs := rfl
    by_cases h : m.2 < x.2
    · obtain ⟨l1, l2, heq, h1, h2⟩ := ih x
      have hx : maxFirst m (x :: xs) = maxFirst x xs := by rw [hstep, if_pos h]
      refine ⟨m :: l1, l2, ?_, ?_, ?_⟩
      · rw [hx]
        simpa using congrArg (m :: ·) heq
      · intro y hy
        rw [hx]
        rcases List.mem_cons.mp hy with hym | hmem
        · subst hym
          exact Nat.lt_of_lt_of_le h (maxFirst_bound xs x x (List.mem_cons_self _ _))
        · exact h1 y hmem
      · intro y hy
        rw [hx]
        exact h2 y hy
    · obtain ⟨l1, l2, heq, h1, h2⟩ := ih m
      have hx : maxFirst m (x :: xs) = maxFirst m xs := by rw [hstep, if_neg h]
      cases l1 with
      | nil =>
        have he : maxFirst m xs = m := by
          have := heq
          simp only [List.nil_append, List.cons.injEq] at this
          exact this.1.symm
        have hl2 : l2 = xs := by
          have := heq
          simp only [List.nil_append, List.cons.injEq] at this
          exact this.2.symm
        refine ⟨[], x :: xs, ?_, by simp, ?_⟩
        · rw [hx, he]
          simp
        · intro y hy
          rcases List.mem_cons.mp hy with hyx | hmem
          · subst hyx
            rw [hx, he]
            exact Nat.le_of_not_lt h
          · have hmem2 : y ∈ l2 := by rw [hl2]; exact hmem
            have hle := h2 y hmem2
            rw [he] at hle
            rw [hx, he]
            exact hle
      | cons a l1' =>
        have ham : a = m := by
          have := heq
          simp only [List.cons_append, List.cons.injEq] at this
          exact this.1.symm
        have hxs : xs = l1' ++ maxFirst m xs :: l2 := by
          have := heq
          simp only [List.cons_append, List.cons.injEq] at this
          exact this.2
        subst ham
        refine ⟨a :: x :: l1', l2, ?_, ?_, ?_⟩
        · rw [hx]
          simpa using congrArg (fun t => a :: x :: t) hxs
        · intro y hy
          rw [hx]
          have hmlt : a.2 < (maxFirst a xs).2 := h1 a (List.mem_cons_self _ _)
          rcases List.mem_cons.mp hy with hya | hrest
          · subst hya; exact hmlt
          · rcases List.mem_cons.mp hrest with hyx | hmem
            · subst hyx
              exact Nat.lt_of_le_of_lt (Nat.le_of_not_lt h) hmlt
            · exact h1 y (List.mem_cons_of_mem _ hmem)
        · intro y hy
          rw [hx]
          exact h2 y hy

theorem filter_split {α : Type} (p : α → Bool) :
    ∀ (l l1 l2 : List α) (e : α),
      l.filter p = l1 ++ e :: l2 →
      ∃ m1 m2, l = m1 ++ e :: m2 ∧ p e = true ∧
        (∀ x ∈ m1, p x = true → x ∈ l1) ∧ (∀ x ∈ m2, p x = true → x ∈ l2) := by
  intro l
  induction l with
  | nil =>
    intro l1 l2 e h
    simp only [List.filter_nil] at h
    exact absurd h (by simp)
  | cons x xs ih =>
    intro l1 l2 e h
    by_cases hp : p x = true
    · rw [List.filter_cons_of_pos hp] at h
      cases l1 with
      | nil =>
        simp only [List.nil_append, List.cons.injEq] at h
        obtain ⟨hxe, hrest⟩ := h
        subst hxe
        refine ⟨[], xs, by simp, hp, by simp, ?_⟩
        intro y hy hpy
        rw [← hrest]
        exact List.mem_filter.mpr ⟨hy, hpy⟩
      | cons a l1' =>
        simp only [List.cons_append, List.cons.injEq] at h
        obtain ⟨hxa, hrest⟩ := h
        obtain ⟨m1, m2, hxs, hpe, hm1, hm2⟩ := ih l1' l2 e hrest
        subst hxa
        refine ⟨x :: m1, m2, by simp [hxs], hpe, ?_, hm2⟩
        intro y hy hpy
        rcases List.mem_cons.mp hy with hyx | hmem
        · subst hyx; exact List.mem_cons_self _ _
        · exact List.mem_cons_of_mem _ (hm1 y hmem hpy)
    · rw [List.filter_cons_of_neg hp] at h
      obtain ⟨m1, m2, hxs, hpe, hm1, hm2⟩ := ih l1 l2 e h
      refine ⟨x :: m1, m2, by simp [hxs], hpe, ?_, hm2⟩
      intro y hy hpy
      rcases List.mem_cons.mp hy with hyx | hmem
      · subst hyx; exact absurd hpy hp
      · exact hm1 y hmem hpy

theorem map_split {α β : Type} (f : α → β) :
    ∀ (l : List α) (l1 l2 : List β) (e : β),
      l.map f = l1 ++ e :: l2 →
      ∃ m1 a m2, l = m1 ++ a :: m2 ∧ f a = e ∧ m1.map f = l1 ∧ m2.map f = l2 := by
  intro l
  induction l with
  | nil =>
    intro l1 l2 e h
    simp only [List.map_nil] at h
    exact absurd h (by simp)
  | cons x xs ih =>
    intro l1 l2 e h
    cases l1 with
    | nil =>
      simp only [List.map_cons, List.nil_append, List.cons.injEq] at h
      exact ⟨[], x, xs, by simp, h.1, rfl, h.2⟩
    | cons b l1' =>
      simp only [List.map_cons, List.cons_append, List.cons.injEq] at h
      obtain ⟨m1, a, m2, hxs, hfa, hmap1, hmap2⟩ := ih l1' l2 e h.2
      exact ⟨x :: m1, a, m2, by simp [hxs], hfa, by simp [hmap1, h.1], hmap2⟩

theorem detect_series_core_spec (text : String) :
    (detect_series_core text = "" ∧
       ∀ sp ∈ seriesPatterns, countMatches sp.2 text = 0) ∨
    (∃ t1 sp t2, seriesPatterns = t1 ++ sp :: t2 ∧
       detect_series_core text = sp.1 ∧
       0 < countMatches sp.2 text ∧
       (∀ q ∈ t1, countMatches q.2 text < countMatches sp.2 text) ∧
       (∀ q ∈ t2, countMatches q.2 text ≤ countMatches sp.2 text)) := by
  cases hps : series_scores text with
  | nil =>
    left
    constructor
    · rw [detect_series_core, hps]
    · intro sp hsp
      have hmem : (sp.1, countMatches sp.2 text) ∈
          seriesPatterns.map (fun sp => (sp.1, countMatches sp.2 text)) :=
        List.mem_map.mpr ⟨sp, hsp, rfl⟩
      have := List.filter_eq_nil_iff.mp hps _ hmem
      simpa using this
  | cons x xs =>
    right
    obtain ⟨l1, l2, heq, h1, h2⟩ := maxFirst_split xs x
    have hfil : (seriesPatterns.map (fun sp => (sp.1, countMatches sp.2 text))).filter
        (fun y => decide (0 < y.2)) = l1 ++ (maxFirst x xs) :: l2 := by
      have : series_scores text = l1 ++ (maxFirst x xs) :: l2 := by rw [hps, heq]
      exact this
    have hsplit := filter_split (fun y : String × Nat => decide (0 < y.2))
      (seriesPatterns.map (fun sp => (sp.1, countMatches sp.2 text))) l1 l2
      (maxFirst x xs) hfil
    obtain ⟨m1, m2, hmap, hpe, hm1, hm2⟩ := hsplit
    have hsplit2 := map_split (fun sp : String × List String =>
        (sp.1, countMatches sp.2 text)) seriesPatterns m1 m2 (maxFirst x xs) hmap
    obtain ⟨t1, sp, t2, htbl, hfa, hmap1, hmap2⟩ := hsplit2
    have hfst : (maxFirst x xs).1 = sp.1 := by rw [← hfa]
    have hsnd : (maxFirst x xs).2 = countMatches sp.2 text := by rw [← hfa]
    refine ⟨t1, sp, t2, htbl, ?_, ?_, ?_, ?_⟩
    · rw [detect_series_core, hps]
      exact hfst
    · have hpos : (0 < (maxFirst x xs).2) := by simpa using hpe
      rwa [hsnd] at hpos
    · intro q hq
      by_cases hqpos : 0 < countMatches q.2 text
      · have hqmem : (q.1, countMatches q.2 text) ∈ m1 := by
          rw [← hmap1]
          exact List.mem_map.mpr ⟨q, hq, rfl⟩
        have hql1 : (q.1, countMatches q.2 text) ∈ l1 :=
          hm1 _ hqmem (by simpa using hqpos)
        have := h1 _ hql1
        rwa [hsnd] at this
      · have hq0 : countMatches q.2 text = 0 := Nat.eq_zero_of_not_pos hqpos
        have hpos : (0 < (maxFirst x xs).2) := by simpa using hpe
        rw [hq0, ← hsnd]
        exact hpos
    · intro q hq
      by_cases hqpos : 0 < countMatches q.2 text
      · have hqmem : (q.1, countMatches q.2 text) ∈ m2 := by
          rw [← hmap2]
          exact List.mem_map.mpr ⟨q, hq, rfl⟩
        have hql2 : (q.1, countMatches q.2 text) ∈ l2 :=
          hm2 _ hqmem (by simpa using hqpos)
        have := h2 _ hql2
        rwa [hsnd] at this
      · have hq0 : countMatches q.2 text = 0 := Nat.eq_zero_of_not_pos hqpos
        rw [hq0]
        exact Nat.zero_le _

/-- C4: the classifier is deterministic (it is a pure function of its
three inputs and the fixed table `seriesPatterns`), and for all inputs
either it returns the empty string and every series of the table has
zero matching patterns in the lowercased concatenation, or it returns
the key of a table entry with a strictly positive score such that every
entry declared earlier in the table has a strictly smaller score and
every entry declared later has a score less than or equal to it — so a
zero-scoring series is never returned, a strict maximum always wins,
and ties go to the first-declared series. -/
theorem detect_series_from_content_spec (title content keywords : String) :
    (detect_series_from_content title content keywords = "" ∧
       ∀ sp ∈ seriesPatterns,
         countMatches sp.2 (searchText title content keywords) = 0) ∨
    (∃ t1 sp t2, seriesPatterns = t1 ++ sp :: t2 ∧
       detect_series_from_content title content keywords = sp.1 ∧
       0 < countMatches sp.2 (searchText title content keywords) ∧
       (∀ q ∈ t1, countMatches q.2 (searchText title content keywords) <
          countMatches sp.2 (searchText title content keywords)) ∧
       (∀ q ∈ t2, countMatches q.2 (searchText title content keywords) ≤
          countMatches sp.2 (searchText title content keywords))) :=
  detect_series_core_spec (searchText title content keywords)

/-! ### The tag scanner

Source: class `BlogPostParser`.  The stdlib tokenizer (`html.parser`,
an external collaborator) turns the document text into a stream of
start-tag, end-tag and data events; an attribute written without a
value (as in a bare `class`) is delivered with the value `None`,
modelled as `none`.  The scanner's handlers are embedded over that
event stream.  `handle_starttag` can raise a `TypeError` when the
substring operator is applied to `None` (Python
`x in attrs_dict.get(..)` where the stored value is `None`); this is
modelled by `Except Unit`, and `parse_html_file` catches it. -/

/-- One tokenizer event. -/
inductive HtmlEvent where
  | startTag (tag : String) (attrs : List (String × Option String))
  | endTag (tag : String)
  | text (s : String)
deriving DecidableEq

/-- Python `dict(attrs)` lookup: the last binding for a key wins;
`none` (outer) means the key is absent, `some none` that it is present
with value `None`. -/
def dictLookup : List (String × Option String) → String → Option (Option String)
  | [], _ => none
  | (k, v) :: rest, key =>
    match dictLookup rest key with
    | some r => some r
    | none => if k == key then some v else none

/-- Python `attrs_dict.get(key, dflt)`: the stored value (which may be
`None` = `none`) when the key is present, the default otherwise. -/
def pyGetD (attrs : List (String × Option String)) (key : String)
    (dflt : Option String) : Option String :=
  match dictLookup attrs key with
  | some v => v
  | none => dflt

/-- Python truthiness of a string-or-`None` value. -/
def truthyOpt : Option String → Bool
  | none => false
  | some s => s != ""

/-- Python `str(x)` of a string-or-`None` value (used where the program
lets a `None` flow into a string position). -/
def pyStr : Option String → String
  | none => "None"
  | some s => s

/-- Python `needle in x` where `x` may be `None`: raises `TypeError`
(modelled as `Except.error`) on `None`. -/
def pyIn (needle : String) : Option String → Except Unit Bool
  | none => .error ()
  | some s => .ok (occursInStr needle s)

/-- The literal part of the embed regex `youtube.com/embed/` followed by
a capture of at least one `[a-zA-Z0-9_-]` character. -/
def ytEmbedLit : List Char := "youtube.com/embed/".data

/-- `re.search` for the embed pattern: first position where the literal
is followed by at least one class character; the greedy capture is the
maximal run of class characters there. -/
def extractIdFrom : List Char → Option (List Char)
  | [] => none
  | c :: rest =>
    match stripPrefixChars ytEmbedLit (c :: rest) with
    | some after =>
      let run := after.takeWhile isYtChar
      if run.isEmpty then extractIdFrom rest else some run
    | none => extractIdFrom rest

/-- Scanner state: the mutable fields of `BlogPostParser`. -/
structure ParserState where
  meta_tags : List (String × Option String) := []
  title : String := ""
  author : String := ""
  post_date : String := ""
  content : String := ""
  youtube_id : String := ""
  current_tag : String := ""
  in_title : Bool := false
  in_author : Bool := false
  in_date : Bool := false
  in_content : Bool := false
  content_depth : Int := 0
deriving DecidableEq

/-- `BlogPostParser.handle_starttag`.  The three content-container
checks and the iframe check apply the substring operator to the
`class` / `src` attribute with default empty string; when the
attribute is present without a value the stored `None` reaches the
operator and a `TypeError` is raised. -/
def handle_starttag (st : ParserState) (tag : String)
    (attrs : List (String × Option String)) : Except Unit ParserState := do
  let st ←
    if tag == "meta" then
      let name := pyGetD attrs "name" (some "")
      let property_val := pyGetD attrs "property" (some "")
      let content := pyGetD attrs "content" (some "")
      if truthyOpt name then
        pure { st with meta_tags := st.meta_tags ++ [(pyStr name, content)] }
      else if truthyOpt property_val then
        pure { st with meta_tags := st.meta_tags ++ [(pyStr property_val, content)] }
      else
        pure st
    else if tag == "title" then
      pure { st with in_title := true }
    else if tag == "span" && pyGetD attrs "class" none == some "post-author" then
      pure { st with in_author := true }
    else if tag == "span" && pyGetD attrs "class" none == some "post-date" then
      pure { st with in_date := true }
    else if tag == "div" then do
      let cls := pyGetD attrs "class" (some "")
      let ha ← pyIn "article-content" cls
      if ha then
        pure { st with in_content := true, content_depth := 1 }
      else do
        let hv ← pyIn "video-container" cls
        if hv then
          pure { st with in_content := true, content_depth := 1 }
        else do
          let hp ← pyIn "poster-container" cls
          if hp then
            pure { st with in_content := true, content_depth := 1 }
          else if st.in_content then
            pure { st with content_depth := st.content_depth + 1 }
          else
            pure st
    else if tag == "iframe" then do
      let src := pyGetD attrs "src" (some "")
      let hs ← pyIn "youtube.com/embed/" src
      if hs then
        match extractIdFrom (pyStr src).data with
        | some run => pure { st with youtube_id := String.mk run }
        | none => pure st
      else
        pure st
    else
      pure st
  pure { st with current_tag := tag }

/-- `BlogPostParser.handle_endtag`. -/
def handle_endtag (st : ParserState) (tag : String) : ParserState :=
  let st :=
    if tag == "title" then { st with in_title := false }
    else if tag == "span" && st.in_author then { st with in_author := false }
    else if tag == "span" && st.in_date then { st with in_date := false }
    else if tag == "div" && st.in_content then
      let d := st.content_depth - 1
      if d ≤ 0 then { st with content_depth := d, in_content := false }
      else { st with content_depth := d }
    else st
  { st with current_tag := "" }

/-- `BlogPostParser.handle_data`. -/
def handle_data (st : ParserState) (s : String) : ParserState :=
  let d := pyTrim s
  if d == "" then st
  else if st.in_title then { st with title := st.title ++ d }
  else if st.in_author then { st with author := st.author ++ d }
  else if st.in_date then { st with post_date := st.post_date ++ d }
  else if st.in_content then { st with content := st.content ++ d ++ " " }
  else st

/-- `parser.feed(content)`: run the handlers over the event stream; an
exception from a handler propagates (to be caught by the caller). -/
def feed (events : List HtmlEvent) : Except Unit ParserState :=
  events.foldlM
    (fun st e =>
      match e with
      | .startTag t a => handle_starttag st t a
      | .endTag t => pure (handle_endtag st t)
      | .text s => pure (handle_data st s))
    {}

/-! ### Date parsing for scanned records

Source: the `strptime`/`strftime` loop of `parse_html_file` over the
formats month-abbrev/full-month/day-first.  The stdlib matcher is
modelled for ASCII input: month names match case-insensitively, day
and year digit groups are one-to-two and one-to-four digits, literal
spaces match runs of whitespace, and the resulting calendar date is
validated (month, day-in-month with leap years, year at least 1). -/

def monthAbbrevs : List String :=
  ["jan", "feb", "mar", "apr", "may", "jun", "jul", "aug", "sep", "oct", "nov", "dec"]

def monthFulls : List String :=
  ["january", "february", "march", "april", "may", "june", "july", "august",
   "september", "october", "november", "december"]

/-- Decimal value of a digit run. -/
def digitsVal (cs : List Char) : Nat :=
  cs.foldl (fun a c => a * 10 + (c.toNat - 48)) 0

/-- Take between one and `maxN` leading digits, greedily. -/
def takeDigits (maxN : Nat) (cs : List Char) : Option (Nat × List Char) :=
  let run := (cs.takeWhile Char.isDigit).take maxN
  if run.isEmpty then none
  else some (digitsVal run, cs.drop run.length)

/-- Match one month name from the list (case-insensitively), returning
its one-based index and the remaining input. -/
def takeMonth (names : List String) (cs : List Char) : Option (Nat × List Char) :=
  let go : Nat → List String → Option (Nat × List Char) :=
    fun start l => Id.run do
      let mut i := start
      for nm in l do
        if (stripPrefixChars nm.data (cs.map Char.toLower)).isSome then
          return some (i, cs.drop nm.length)
        i := i + 1
      return none
  go 1 names

/-- Match a run of at least one whitespace character. -/
def takeWs1 (cs : List Char) : Option (List Char) :=
  let run := cs.takeWhile Char.isWhitespace
  if run.isEmpty then none else some (cs.drop run.length)

def isLeapYear (y : Nat) : Bool :=
  (y % 4 == 0 && y % 100 != 0) || y % 400 == 0

def daysInMonth (y m : Nat) : Nat :=
  if m == 2 then (if isLeapYear y then 29 else 28)
  else if m == 4 || m == 6 || m == 9 || m == 11 then 30
  else 31

/-- Left-pad a numeral with zeros to the given width. -/
def padZeros (width n : Nat) : String :=
  let s := toString n
  String.mk (List.replicate (width - s.length) '0') ++ s

/-- Validate the parsed fields and render
`date_obj.strftime(canonical timestamp format)` with midnight time. -/
def renderDate (y m d : Nat) (rest : List Char) : Option String :=
  if rest == [] && 1 ≤ y && 1 ≤ m && m ≤ 12 && 1 ≤ d && d ≤ daysInMonth y m then
    some (padZeros 4 y ++ "-" ++ padZeros 2 m ++ "-" ++ padZeros 2 d ++ " 00:00:00")
  else none

/-- `strptime(s, month-name day, year)` for either name table. -/
def parseMonthDayYear (names : List String) (s : String) : Option String := do
  let (m, r1) ← takeMonth names s.data
  let r2 ← takeWs1 r1
  let (d, r3) ← takeDigits 2 r2
  let r4 ← match r3 with
           | ',' :: t => some t
           | _ => none
  let r5 ← takeWs1 r4
  let (y, r6) ← takeDigits 4 r5
  renderDate y m d r6

/-- `strptime(s, day month-abbrev year)`. -/
def parseDayMonthYear (s : String) : Option String := do
  let (d, r1) ← takeDigits 2 s.data
  let r2 ← takeWs1 r1
  let (m, r3) ← takeMonth monthAbbrevs r2
  let r4 ← takeWs1 r3
  let (y, r5) ← takeDigits 4 r4
  renderDate y m d r5

/-- The source's format loop: the first of the three formats that
parses wins; `none` when all three raise `ValueError`. -/
def parse_date_text (s : String) : Option String :=
  match parseMonthDayYear monthAbbrevs s with
  | some d => some d
  | none =>
    match parseMonthDayYear monthFulls s with
    | some d => some d
    | none => parseDayMonthYear s

/-! ### The metadata extractor

Source: `BlogCMS.parse_html_file`.  The tokenizer event stream, the
file's last-modified timestamp (already rendered in the canonical
format) and the md5 digest of the raw bytes are inputs here because
they come from external collaborators (stdlib tokenizer, filesystem,
hashlib).  Any exception escaping the handlers is caught and turned
into `none` (the per-document failure counted by the indexer). -/

/-- The metadata record of one post (dataclass `PostMetadata`). -/
structure PostMetadata where
  slug : String
  title : String
  author : String
  post_type : String
  description : String
  keywords : String
  image_url : String
  series : String := ""
  youtube_id : String := ""
  created_date : String := ""
  modified_date : String := ""
  published : Bool := true
  view_count : Nat := 0
  file_hash : String := ""
  indexed_from_file : Bool := false
deriving DecidableEq

/-- Python `a or b` for a string-or-`None` left operand. -/
def pyOrStr (a : Option String) (b : String) : String :=
  match a with
  | some s => if s == "" then b else s
  | none => b

/-- The description expression of `parse_html_file`, with Python's
operator precedence: the conditional binds last, so the meta-tag
fallback chain is consulted only in the long-body branch, and a body
of two hundred characters or fewer is returned unconditionally. -/
def computeDescription (tags : List (String × Option String)) (content : String) : String :=
  if 200 < content.data.length then
    pyOrStr (pyGetD tags "description" (some ""))
      (pyOrStr (pyGetD tags "og:description" (some "")) (pyTake content 200 ++ "..."))
  else content

/-- `BlogCMS.parse_html_file`. -/
def parse_html_file (slug : String) (rawContent : String) (events : List HtmlEvent)
    (mtimeStr fileHash : String) : Option PostMetadata :=
  match feed events with
  | .error _ => none
  | .ok parser =>
    let title := pyTrim (pyReplace parser.title " - The Bandar Breakdowns" "")
    let post_type :=
      if occursInStr "poster-container" rawContent then "Poster"
      else if occursInStr "video-container" rawContent || parser.youtube_id != "" then "Video"
      else if occursInStr "article-content" rawContent then "Article"
      else "Article"
    let description := computeDescription parser.meta_tags parser.content
    let keywords_val := pyGetD parser.meta_tags "keywords" (some "bandar sunway, blog")
    let image_url :=
      pyOrStr (pyGetD parser.meta_tags "og:image" (some ""))
        (pyOrStr (pyGetD parser.meta_tags "twitter:image" (some ""))
          "https://via.placeholder.com/800x400/cccccc/000000?text=No+Image")
    let author := if parser.author == "" then "The Team" else parser.author
    let created_date :=
      if parser.post_date != "" then
        match parse_date_text parser.post_date with
        | some d => d
        | none => mtimeStr
      else mtimeStr
    let series := detect_series_from_content title parser.content (pyStr keywords_val)
    some
      { slug := slug
        title := if title == "" then "Untitled (" ++ slug ++ ")" else title
        author := author
        post_type := post_type
        description := description
        keywords := pyStr keywords_val
        image_url := image_url
        series := series
        youtube_id := parser.youtube_id
        created_date := created_date
        modified_date := created_date
        published := true
        view_count := 0
        file_hash := fileHash
        indexed_from_file := true }

/-- C6: the claim says malformed or unexpected markup (including
unexpected attribute shapes) only degrades individual fields, never
making the document's extraction fail.  In fact a `div` carrying a
valueless `class` attribute (tokenized as the attribute value `None`)
makes `handle_starttag` apply the substring operator to `None`, which
raises a `TypeError`; `parse_html_file` catches it and returns `None`,
so the document is counted as an extraction error.  The same document
with a valued `class` attribute extracts fine, isolating the attribute
shape as the cause. -/
theorem parse_html_file_fails_on_valueless_class :
    parse_html_file "broken" "<html><div class></div></html>"
      [HtmlEvent.startTag "html" [], HtmlEvent.startTag "div" [("class", none)],
       HtmlEvent.endTag "div", HtmlEvent.endTag "html"]
      "2024-05-05 12:00:00" "d41d8cd9" = none ∧
    (parse_html_file "broken" "<html><div class=\"x\"></div></html>"
      [HtmlEvent.startTag "html" [], HtmlEvent.startTag "div" [("class", some "x")],
       HtmlEvent.endTag "div", HtmlEvent.endTag "html"]
      "2024-05-05 12:00:00" "d41d8cd9").isSome = true := by
  constructor
  · rfl
  · rfl

/-- C3: the claim says a non-empty meta `description` always wins.  In
fact, by Python operator precedence, when the scanned body text is two
hundred characters or fewer the body text is returned unconditionally,
ignoring a non-empty meta `description` ("Meta desc" here): the
extracted description is the scanned body text `"Short body "`. -/
theorem description_ignores_meta_for_short_body :
    (parse_html_file "short-post"
        "<html><meta name=\"description\" content=\"Meta desc\"><div class=\"article-content\">Short body</div></html>"
        [HtmlEvent.startTag "meta" [("name", some "description"), ("content", some "Meta desc")],
         HtmlEvent.startTag "div" [("class", some "article-content")],
         HtmlEvent.text "Short body", HtmlEvent.endTag "div"]
        "2024-05-05 12:00:00" "abc123").map (fun r => r.description) = some "Short body " ∧
    "Short body " ≠ "Meta desc" := by
  constructor
  · rfl
  · decide

/-! ### The corpus indexer: reindex-all

Source: `BlogCMS.reindex_files`.  The store (`metadata_cache`) is a
mapping from slug to record; the pass snapshots it
(`original_metadata`), then walks the corpus files.  Each file is
given here as its slug (the file stem) paired with the result of
`parse_html_file` — `none` for a parse failure.  On success the cache
entry for the slug is replaced by the fresh record after the merge
rules: `view_count` always carried from the prior record, and for an
authored prior record (`indexed_from_file = False`) also
`created_date`, `author` and `series`.  A parse failure only counts an
error and leaves the cache untouched.  The function returns the final
cache, which is what `_save_metadata` persists. -/

/-- The in-memory metadata store, keyed by slug. -/
def Store : Type := String → Option PostMetadata

/-- The preservation step of `reindex_files` applied to one fresh
record, with the prior record for the same slug (if any) from the
pre-pass snapshot. -/
def mergeRecord (prior : Option PostMetadata) (fresh : PostMetadata) : PostMetadata :=
  match prior with
  | none => fresh
  | some original =>
    let m := { fresh with view_count := original.view_count }
    if original.indexed_from_file then m
    else { m with created_date := original.created_date,
                  author := original.author,
                  series := original.series }

/-- One iteration of the reindex loop over the file list. -/
def applyScan (snapshot : Store) (cur : Store) (slug : String)
    (res : Option PostMetadata) : Store :=
  match res with
  | none => cur
  | some fresh => fun s => if s = slug then some (mergeRecord (snapshot slug) fresh) else cur s

def reindexLoop (snapshot : Store) : Store → List (String × Option PostMetadata) → Store
  | cur, [] => cur
  | cur, f :: fs => reindexLoop snapshot (applyScan snapshot cur f.1 f.2) fs

/-- `BlogCMS.reindex_files`: snapshot the store, walk the files, merge
each successful parse, and return the resulting store. -/
def reindex_files (store : Store) (files : List (String × Option PostMetadata)) : Store :=
  reindexLoop store store files

theorem reindexLoop_not_mem (snapshot : Store) (slug : String) :
    ∀ (fs : List (String × Option PostMetadata)) (cur : Store),
      slug ∉ fs.map Prod.fst → reindexLoop snapshot cur fs slug = cur slug := by
  intro fs
  induction fs with
  | nil => intro cur _; rfl
  | cons f fs ih =>
    intro cur h
    have hne : slug ≠ f.1 := by
      intro he
      exact h (by simp [he])
    have h2 : slug ∉ fs.map Prod.fst := by
      intro hm
      exact h (by simp [hm])
    rw [reindexLoop, ih _ h2]
    cases hres : f.2 with
    | none => simp [applyScan, hres]
    | some fresh => simp [applyScan, hres, hne]

theorem reindexLoop_mem (snapshot : Store) (slug : String) (res : Option PostMetadata) :
    ∀ (fs : List (String × Option PostMetadata)) (cur : Store),
      (fs.map Prod.fst).Nodup → (slug, res) ∈ fs → cur slug = snapshot slug →
      reindexLoop snapshot cur fs slug =
        (match res with
         | none => snapshot slug
         | some fresh => some (mergeRecord (snapshot slug) fresh)) := by
  intro fs
  induction fs with
  | nil => intro cur _ hmem _; cases hmem
  | cons f fs ih =>
    intro cur hnd hmem hcur
    have hnd' : (f.1 :: fs.map Prod.fst).Nodup := by simpa using hnd
    rcases List.mem_cons.mp hmem with hf | htail
    · have hf1 : f.1 = slug := by rw [← hf]
      have hf2 : f.2 = res := by rw [← hf]
      have hnotin : slug ∉ fs.map Prod.fst := by
        rw [← hf1]
        exact (List.nodup_cons.mp hnd').1
      rw [reindexLoop, reindexLoop_not_mem snapshot slug fs _ hnotin]
      cases hres : res with
      | none =>
        simp [applyScan, hf2, hres, hcur]
      | some fresh =>
        simp [applyScan, hf2, hres, hf1]
    · have hin : slug ∈ fs.map Prod.fst :=
        List.mem_map.mpr ⟨(slug, res), htail, rfl⟩
      have hne : slug ≠ f.1 := by
        intro he
        exact (List.nodup_cons.mp hnd').1 (he ▸ hin)
      have hcur' : applyScan snapshot cur f.1 f.2 slug = snapshot slug := by
        cases hres : f.2 with
        | none => simpa [applyScan, hres] using hcur
        | some fresh => simpa [applyScan, hres, hne] using hcur
      rw [reindexLoop]
      exact ih _ (List.nodup_cons.mp hnd').2 htail hcur'

/-- C1: on a reindex pass, for a scanned document whose slug had an
authored prior record (`indexed_from_file = False`), the resulting
store entry carries forward the prior record's `created_date`,
`author`, `series` and `view_count`, while every other field (title,
post type, description, keywords, image url, video id, modified date,
content digest, published flag, scan-derivation flag, slug) is the
value of the fresh scan: the entry is exactly the fresh record with
those four fields overridden. -/
theorem reindex_preserves_authored_fields (store : Store)
    (files : List (String × Option PostMetadata)) (slug : String)
    (fresh original : PostMetadata)
    (hnd : (files.map Prod.fst).Nodup)
    (hmem : (slug, some fresh) ∈ files)
    (hprior : store slug = some original)
    (hauthored : original.indexed_from_file = false) :
    reindex_files store files slug =
      some { fresh with view_count := original.view_count,
                        created_date := original.created_date,
                        author := original.author,
                        series := original.series } := by
  have h := reindexLoop_mem store slug (some fresh) files store hnd hmem rfl
  show reindexLoop store store files slug = _
  rw [h]
  simp [mergeRecord, hprior, hauthored]

/-- C5: on a reindex pass, for a scanned document whose slug had a
scan-derived prior record (`indexed_from_file = True`), the resulting
store entry equals the fresh record in every field except
`view_count`, the only field carried forward from the prior record. -/
theorem reindex_replaces_scanned (store : Store)
    (files : List (String × Option PostMetadata)) (slug : String)
    (fresh original : PostMetadata)
    (hnd : (files.map Prod.fst).Nodup)
    (hmem : (slug, some fresh) ∈ files)
    (hprior : store slug = some original)
    (hscanned : original.indexed_from_file = true) :
    reindex_files store files slug =
      some { fresh with view_count := original.view_count } := by
  have h := reindexLoop_mem store slug (some fresh) files store hnd hmem rfl
  show reindexLoop store store files slug = _
  rw [h]
  simp [mergeRecord, hprior, hscanned]

/-- C10: on a reindex pass, a document whose extraction fails leaves
the store's prior entry for its slug exactly unchanged — neither
removed nor modified — and that untouched entry is part of the store
the pass returns (which is what gets persisted). -/
theorem reindex_error_preserves_prior (store : Store)
    (files : List (String × Option PostMetadata)) (slug : String)
    (original : PostMetadata)
    (hnd : (files.map Prod.fst).Nodup)
    (hmem : (slug, none) ∈ files)
    (hprior : store slug = some original) :
    reindex_files store files slug = some original := by
  have h := reindexLoop_mem store slug none files store hnd hmem rfl
  show reindexLoop store store files slug = _
  rw [h]
  exact hprior

/-- A fresh scan result used to instantiate the reindex theorems. -/
def freshW : PostMetadata :=
  { slug := "a", title := "Fresh title", author := "Scanner", post_type := "Article",
    description := "Fresh desc", keywords := "k1, k2", image_url := "https://x/i.png",
    series := "after_hours", youtube_id := "", created_date := "2024-06-01 09:30:00",
    modified_date := "2024-06-01 09:30:00", published := true, view_count := 0,
    file_hash := "ff01", indexed_from_file := true }

/-- An authored prior record for the same slug. -/
def origAuthoredW : PostMetadata :=
  { slug := "a", title := "Old title", author := "Jane", post_type := "Article",
    description := "Old desc", keywords := "old", image_url := "https://x/o.png",
    series := "cram_and_cry", youtube_id := "", created_date := "2024-01-01 10:00:00",
    modified_date := "2024-01-02 11:00:00", published := true, view_count := 7,
    file_hash := "aa02", indexed_from_file := false }

/-- A scan-derived prior record for the same slug. -/
def origScannedW : PostMetadata :=
  { origAuthoredW with indexed_from_file := true }

def storeAuthoredW : Store := fun s => if s = "a" then some origAuthoredW else none

def storeScannedW : Store := fun s => if s = "a" then some origScannedW else none

theorem reindex_preserves_authored_fields_witness :
    reindex_files storeAuthoredW [("a", some freshW)] "a" =
      some { freshW with view_count := origAuthoredW.view_count,
                         created_date := origAuthoredW.created_date,
                         author := origAuthoredW.author,
                         series := origAuthoredW.series } :=
  reindex_preserves_authored_fields storeAuthoredW [("a", some freshW)] "a" freshW
    origAuthoredW (by decide) (by decide) rfl rfl

theorem reindex_replaces_scanned_witness :
    reindex_files storeScannedW [("a", some freshW)] "a" =
      some { freshW with view_count := origScannedW.view_count } :=
  reindex_replaces_scanned storeScannedW [("a", some freshW)] "a" freshW
    origScannedW (by decide) (by decide) rfl rfl

theorem reindex_error_preserves_prior_witness :
    reindex_files storeAuthoredW [("a", none), ("b", some freshW)] "a" =
      some origAuthoredW :=
  reindex_error_preserves_prior storeAuthoredW [("a", none), ("b", some freshW)] "a"
    origAuthoredW (by decide) (by decide) rfl

/-! ### The index page splicer

Source: `BlogCMS.generate_blog_card_html` and
`BlogCMS.update_blog_index`.  Cards are rendered from the store's
records (sorted stably by `created_date` descending — Python `sorted`
with `reverse=True` — and filtered to published ones) and spliced
between the first occurrence of the opening marker and the first
closing-div occurring after it.  A `none` result models the early
returns of the source (missing marker or missing closing div), on
which the listing page is not written.  The fallback of the date
display (`datetime.now()` formatted) is passed in as `now`. -/

/-- `strptime` of the canonical timestamp `year-month-day h:m:s` with
zero-padded two-digit fields (the only shape the program writes),
validating calendar ranges; returns year, month, day. -/
def parseYmdHms (ts : String) : Option (Nat × Nat × Nat) :=
  match ts.data with
  | [y1, y2, y3, y4, '-', mo1, mo2, '-', d1, d2, ' ',
     hh1, hh2, ':', mi1, mi2, ':', se1, se2] =>
    if ([y1, y2, y3, y4, mo1, mo2, d1, d2, hh1, hh2, mi1, mi2, se1, se2].all Char.isDigit) then
      let y := digitsVal [y1, y2, y3, y4]
      let m := digitsVal [mo1, mo2]
      let d := digitsVal [d1, d2]
      let hh := digitsVal [hh1, hh2]
      let mi := digitsVal [mi1, mi2]
      let se := digitsVal [se1, se2]
      if 1 ≤ y && 1 ≤ m && m ≤ 12 && 1 ≤ d && d ≤ daysInMonth y m &&
         hh ≤ 23 && mi ≤ 59 && se ≤ 61 then
        some (y, m, d)
      else none
    else none
  | _ => none

def monthAbbrevDisplay : Nat → String
  | 1 => "Jan" | 2 => "Feb" | 3 => "Mar" | 4 => "Apr" | 5 => "May" | 6 => "Jun"
  | 7 => "Jul" | 8 => "Aug" | 9 => "Sep" | 10 => "Oct" | 11 => "Nov" | 12 => "Dec"
  | _ => ""

/-- The card date: `strftime` month-abbrev, zero-padded day, comma,
year, applied to the parsed `created_date`; on a parse failure the
source formats the current time, passed in as `now`. -/
def formatDisplayDate (now : String) (created : String) : String :=
  match parseYmdHms created with
  | some (y, m, d) => monthAbbrevDisplay m ++ " " ++ padZeros 2 d ++ ", " ++ toString y
  | none => now

/-- `BlogCMS.generate_blog_card_html`: the dedented and stripped card
f-string, byte for byte (the record fields interpolated here contain
no newline in any use below, so the dedent margin is the fixed
template's). -/
def generate_blog_card_html (now : String) (m : PostMetadata) : String :=
  let formatted_date := formatDisplayDate now m.created_date
  let data_series := if m.series != "" then "data-series=\"" ++ m.series ++ "\"" else ""
  "<div class=\"blog-card\" " ++ data_series ++ ">\n" ++
  "    <a href=\"" ++ m.slug ++ ".html\">\n" ++
  "        <div class=\"card-image-wrapper\">\n" ++
  "            <div class=\"card-category\">" ++ m.post_type ++ "</div>\n" ++
  "            <img loading=\"lazy\" src=\"" ++ m.image_url ++ "\" alt=\"" ++ m.description ++ "\">\n" ++
  "        </div>\n" ++
  "        <div class=\"card-content\">\n" ++
  "            <h3>" ++ m.title ++ "</h3>\n" ++
  "            <small class=\"card-meta\">By " ++ m.author ++ " | " ++ formatted_date ++ "</small>\n" ++
  "            <p>" ++ m.description ++ "</p>\n" ++
  "        </div>\n" ++
  "    </a>\n" ++
  "</div>"

/-- Lexicographic comparison of character lists by code point
(Python string comparison). -/
def lexLe : List Char → List Char → Bool
  | [], _ => true
  | _ :: _, [] => false
  | a :: as, b :: bs => if a == b then lexLe as bs else decide (a < b)

/-- Stable descending insertion by `created_date`: a later record goes
after every earlier record whose key is greater than or equal to its
own — the order produced by Python `sorted(key, reverse=True)`. -/
def insertByDateDesc (p : PostMetadata) : List PostMetadata → List PostMetadata
  | [] => [p]
  | q :: rest =>
    if lexLe p.created_date.data q.created_date.data then q :: insertByDateDesc p rest
    else p :: q :: rest

def sortPostsByDateDesc (posts : List PostMetadata) : List PostMetadata :=
  posts.foldl (fun acc p => insertByDateDesc p acc) []

def insertion_marker : String := "<div class=\"blog-grid\">"

def closing_marker : String := "</div>"

/-- `BlogCMS.update_blog_index`, over the listing page text and the
store's records (in store order): `none` models the source's early
returns — opening marker absent, or no closing div after it — on which
the page is not written; `some` is the new page text. -/
def update_blog_index (now : String) (content : String)
    (posts : List PostMetadata) : Option String :=
  let sorted_posts := sortPostsByDateDesc posts
  let cards_html := (sorted_posts.filter (fun p => p.published)).map (generate_blog_card_html now)
  let cs := content.data
  if occursIn insertion_marker.data cs then
    match findIdxAux insertion_marker.data cs 0 with
    | none => none
    | some start_pos =>
      let after_marker := start_pos + insertion_marker.data.length
      match findIdxAux closing_marker.data (cs.drop after_marker) after_marker with
      | none => none
      | some end_pos =>
        some (String.mk (cs.take after_marker) ++
          "\n\n                <!-- Auto-generated blog cards -->\n\n" ++
          joinWith "\n\n                " cards_html ++
          "\n\n                <!-- End auto-generated cards -->\n\n            " ++
          String.mk (cs.drop end_pos))
  else none

/-- C7: regenerating a listing page that does not contain the opening
marker fails (the `MarkerNotFound` early return) and performs no
write, leaving the page byte-for-byte unchanged — modelled by the
`none` result, which is the branch where the source returns before
opening the page for writing. -/
theorem update_blog_index_missing_marker (now content : String)
    (posts : List PostMetadata)
    (h : occursInStr insertion_marker content = false) :
    update_blog_index now content posts = none := by
  have h' : occursIn insertion_marker.data content.data = false := h
  simp [update_blog_index, h']

theorem update_blog_index_missing_marker_witness :
    update_blog_index "Jan 01, 2024" "<html><body>no grid here</body></html>" [] = none :=
  update_blog_index_missing_marker "Jan 01, 2024" "<html><body>no grid here</body></html>" []
    (by decide)

/-- A published record with a valid timestamp, for the splice
counterexample. -/
def postW : PostMetadata :=
  { slug := "a", title := "T", author := "A", post_type := "Article",
    description := "D", keywords := "K", image_url := "https://x/i.png",
    series := "", youtube_id := "", created_date := "2024-01-01 10:00:00",
    modified_date := "2024-01-01 10:00:00", published := true, view_count := 0,
    file_hash := "", indexed_from_file := true }

/-- A minimal listing page containing the marker-delimited grid. -/
def pageW : String := "<html><body><div class=\"blog-grid\">\n</div></body></html>"

set_option maxRecDepth 100000 in
/-- C2: regenerating the listing page twice with the same single
published record is not idempotent: both passes succeed, but the
second pass's closing boundary is the first closing div after the
marker, which lies inside the first generated card, so the second
output retains the tail of the first pass's card block and differs
from the first output. -/
theorem update_blog_index_not_idempotent :
    (update_blog_index "Jan 01, 2024" pageW [postW]).isSome = true ∧
    ((update_blog_index "Jan 01, 2024" pageW [postW]).bind
        (fun s => update_blog_index "Jan 01, 2024" s [postW])).isSome = true ∧
    (update_blog_index "Jan 01, 2024" pageW [postW]).bind
        (fun s => update_blog_index "Jan 01, 2024" s [postW]) ≠
      update_blog_index "Jan 01, 2024" pageW [postW] := by
  refine ⟨rfl, rfl, ?_⟩
  decide

/-! ### The slug allocator

Source: `BlogCMS.create_slug`.  The title is lowercased and stripped,
whitespace runs become single hyphens, characters outside word
characters and hyphens are removed, hyphen runs are collapsed, and
leading/trailing hyphens are trimmed; then a collision loop appends
increasing numeric suffixes while the candidate is a key of the store.
The store is given as the list of existing slugs.  The loop is
embedded with fuel one more than the store size, which the while loop
never exhausts: the candidates are pairwise distinct strings, so at
most store-size iterations can collide. -/

/-- A regex word character (ASCII model of the word class). -/
def isWordChar (c : Char) : Bool := c.isAlphanum || c == '_'

/-- Replace every whitespace run by a single hyphen. -/
def squashWsToHyphen : Bool → List Char → List Char
  | _, [] => []
  | prevWs, c :: rest =>
    if c.isWhitespace then
      if prevWs then squashWsToHyphen true rest
      else '-' :: squashWsToHyphen true rest
    else c :: squashWsToHyphen false rest

/-- Collapse every hyphen run to a single hyphen (the source replaces
runs of two or more and leaves single hyphens, which coincide). -/
def squashHyphens : Bool → List Char → List Char
  | _, [] => []
  | prevH, c :: rest =>
    if c == '-' then
      if prevH then squashHyphens true rest
      else '-' :: squashHyphens true rest
    else c :: squashHyphens false rest

/-- Python `strip(hyphen)`. -/
def trimHyphens (cs : List Char) : List Char :=
  ((cs.dropWhile (· == '-')).reverse.dropWhile (· == '-')).reverse

/-- The normalisation pipeline of `create_slug`, before the
uniqueness loop. -/
def normalize_slug (title : String) : String :=
  let cs := (pyTrim (pyLower title)).data
  String.mk (trimHyphens (squashHyphens false
    ((squashWsToHyphen false cs).filter (fun c => isWordChar c || c == '-'))))

/-- The candidate with numeric suffix `n` (Python f-string of the base,
a hyphen, and the counter). -/
def candidateSlug (base : String) (n : Nat) : String :=
  base ++ "-" ++ toString n

/-- The collision loop of `create_slug`: while the current slug is a
key of the store, move to the next suffixed candidate. -/
def uniqueLoop (store : List String) (base : String) : Nat → String → Nat → String
  | 0, slug, _ => slug
  | fuel + 1, slug, counter =>
    if slug ∈ store then uniqueLoop store base fuel (candidateSlug base counter) (counter + 1)
    else slug

/-- `BlogCMS.create_slug`. -/
def create_slug (store : List String) (title : String) : String :=
  let base := normalize_slug title
  uniqueLoop store base (store.length + 1) base 1

/-- C9 counterexample: with an empty store an empty title yields the
empty slug itself — the collision loop never runs, so the result is
not of the form of a hyphen followed by a positive integer (its length
is zero). -/
theorem create_slug_empty_title_empty_store :
    create_slug [] "" = "" ∧ (create_slug [] "").data.length = 0 := by
  decide

theorem uniqueLoop_first_free (store : List String) (base : String) :
    ∀ (fuel j k : Nat), j ≤ k → k - j < fuel →
      (∀ m, j ≤ m → m < k → candidateSlug base m ∈ store) →
      candidateSlug base k ∉ store →
      uniqueLoop store base fuel (candidateSlug base j) (j + 1) = candidateSlug base k := by
  intro fuel
  induction fuel with
  | zero =>
    intro j k _ hlt _ _
    exact absurd hlt (Nat.not_lt_zero _)
  | succ fuel ih =>
    intro j k hjk hlt hall hfree
    rcases Nat.eq_or_lt_of_le hjk with heq | hlt2
    · subst heq
      rw [uniqueLoop, if_neg hfree]
    · have hmem := hall j (Nat.le_refl j) hlt2
      rw [uniqueLoop, if_pos hmem]
      exact ih (j + 1) k hlt2 (by omega) (fun m hm1 hm2 => hall m (by omega) hm2) hfree

/-- C9 (amended): with an empty title the base slug is empty.  When the
empty string is not already a key of the store, the allocator returns
the empty slug itself (not a suffixed one).  Only when the empty slug
collides does the loop run, and it then returns the suffixed slug of
the smallest positive index that is free (the index hypotheses supply
that smallest free index; it never exceeds the store size because the
earlier candidates are distinct keys of the store). -/
theorem create_slug_empty_title_spec (store : List String) :
    ("" ∉ store → create_slug store "" = "") ∧
    (∀ k : Nat, 0 < k → k ≤ store.length → "" ∈ store →
      candidateSlug "" k ∉ store →
      (∀ m : Nat, 0 < m → m < k → candidateSlug "" m ∈ store) →
      create_slug store "" = candidateSlug "" k) := by
  constructor
  · intro hfree
    show uniqueLoop store "" (store.length + 1) "" 1 = ""
    rw [uniqueLoop, if_neg hfree]
  · intro k hk hkle hcoll hfree hall
    show uniqueLoop store "" (store.length + 1) "" 1 = candidateSlug "" k
    rw [uniqueLoop, if_pos hcoll]
    have hlen : 0 < store.length := List.length_pos.mpr (List.ne_nil_of_mem hcoll)
    exact uniqueLoop_first_free store "" store.length 1 k hk (by omega)
      (fun m hm1 hm2 => hall m hm1 hm2) hfree

theorem create_slug_empty_title_spec_witness :
    create_slug ["x"] "" = "" ∧ create_slug [""] "" = candidateSlug "" 1 := by
  constructor
  · exact (create_slug_empty_title_spec ["x"]).1 (by decide)
  · refine (create_slug_empty_title_spec [""]).2 1 (by decide) (by decide) (by decide)
      (by decide) ?_
    intro m hm1 hm2
    exact absurd hm2 (by omega)
